import Mathlib

/-!
Verification of the XenAPI inspector (ceilometer/compute/virt/xenapi/inspector.py).

The Python module is shallowly embedded: pure string manipulation
(`swap_xapi_host` together with the parts of `urllib.parse` it relies on)
becomes executable functions on `List Char`; remote XenAPI calls become
oracle functions supplied through environment records; Python exceptions
become an explicit `Except` error type; Python floats become rationals.
-/

namespace XenInspect

/-! ### Generic list/character helpers (Python string primitives) -/

/-- Boolean test that `pat` is a leading segment of `l`
(Python `str.startswith`). -/
def startsWith : List Char → List Char → Bool
  | [], _ => true
  | _ :: _, [] => false
  | p :: ps, c :: cs => p == c && startsWith ps cs

/-- Boolean test that `pat` occurs contiguously inside `l`
(Python `pat in l`). -/
def hasSubstr (pat : List Char) : List Char → Bool
  | [] => pat.isEmpty
  | c :: cs => startsWith pat (c :: cs) || hasSubstr pat cs

/-- Fuel-driven worker for `replaceAll`; the fuel is an upper bound on the
length of the list, which keeps the recursion structural. -/
def replaceAllFuel (pat rep : List Char) : Nat → List Char → List Char
  | _, [] => []
  | 0, l => l
  | fuel + 1, c :: cs =>
    if startsWith pat (c :: cs) then
      rep ++ replaceAllFuel pat rep fuel (List.drop (pat.length - 1) cs)
    else
      c :: replaceAllFuel pat rep fuel cs

/-- Replace every non-overlapping occurrence of `pat` in `l` by `rep`,
scanning left to right (Python `str.replace` for a nonempty pattern). -/
def replaceAll (pat rep l : List Char) : List Char :=
  replaceAllFuel pat rep l.length l

/-- Split at the first occurrence of `ch`: first component is everything
strictly before it, second component starts with `ch` (or is `[]` when `ch`
does not occur). -/
def splitFirstAt (ch : Char) (l : List Char) : List Char × List Char :=
  (l.takeWhile (fun c => c != ch), l.dropWhile (fun c => c != ch))

/-- The suffix of `l` strictly after the last occurrence of `x`; `l` itself
when `x` does not occur (Python `str.rpartition(x)[2]`). -/
def afterLastElem (x : Char) (l : List Char) : List Char :=
  (l.reverse.takeWhile (fun c => c != x)).reverse

/-- The part of `l` up to and including the last occurrence of `x`; `[]`
when `x` does not occur. -/
def beforeLastIncl (x : Char) (l : List Char) : List Char :=
  (l.reverse.dropWhile (fun c => c != x)).reverse

/-! ### Model of the parts of `urllib.parse` used by `swap_xapi_host`

`swap_xapi_host` calls `urlparse`, reads `.netloc` and `.hostname`,
substitutes the netloc with `._replace`, and re-renders with `urlunparse`.
These library functions (an external collaborator of the module under
verification) are modelled after CPython's `urllib.parse` for URLs whose
netloc is bracket-free, which is the only shape the connection URLs take. -/

/-- Characters CPython allows in a URL scheme. -/
def schemeChar (c : Char) : Bool :=
  c.isAlpha || c.isDigit || c == '+' || c == '-' || c == '.'

/-- CPython `urlsplit` scheme handling: if the text before the first `':'`
is a nonempty run of scheme characters starting with a letter, it is the
scheme (lower-cased) and is stripped; otherwise the scheme is empty. -/
def splitSchemeFn (url : List Char) : List Char × List Char :=
  match url.dropWhile schemeChar with
  | ':' :: r =>
    match url.takeWhile schemeChar with
    | [] => ([], url)
    | c :: cs => if c.isAlpha then ((c :: cs).map Char.toLower, r) else ([], url)
  | _ => ([], url)

/-- A character that terminates the netloc in CPython `urlsplit`. -/
def netlocStop (c : Char) : Bool :=
  c == '/' || c == '?' || c == '#'

/-- CPython `urlsplit` netloc handling: after the scheme, a leading `//`
introduces the netloc, which extends up to the first `/`, `?` or `#`. -/
def splitNetlocFn (rest : List Char) : List Char × List Char :=
  match rest with
  | '/' :: '/' :: r =>
    (r.takeWhile (fun c => !netlocStop c), r.dropWhile (fun c => !netlocStop c))
  | _ => ([], rest)

/-- CPython `urlparse._splitparams`: split `;params` off the last path
segment (searching only after the last `/` when one is present). -/
def splitParamsFn (u : List Char) : List Char × List Char :=
  if ('/' : Char) ∈ u then
    if (';' : Char) ∈ afterLastElem '/' u then
      (beforeLastIncl '/' u ++ (afterLastElem '/' u).takeWhile (fun c => c != ';'),
       ((afterLastElem '/' u).dropWhile (fun c => c != ';')).tail)
    else (u, [])
  else
    if (';' : Char) ∈ u then
      (u.takeWhile (fun c => c != ';'), (u.dropWhile (fun c => c != ';')).tail)
    else (u, [])

/-- The six components of CPython `urlparse`. -/
structure ParseResult where
  scheme : List Char
  netloc : List Char
  path : List Char
  params : List Char
  query : List Char
  fragment : List Char
  deriving DecidableEq, Repr

/-- CPython `urlparse` (scheme, then netloc, then fragment at the first
`#`, then query at the first `?`, then params off the path). -/
def urlparse (url : List Char) : ParseResult :=
  let s := splitSchemeFn url
  let n := splitNetlocFn s.2
  let h := splitFirstAt '#' n.2
  let q := splitFirstAt '?' h.1
  let pp := splitParamsFn q.1
  ⟨s.1, n.1, pp.1, pp.2, q.2.tail, h.2.tail⟩

/-- CPython `urlunsplit`. -/
def urlunsplitFn (scheme netloc u query frag : List Char) : List Char :=
  let u1 :=
    if netloc ≠ [] ∨ (u ≠ [] ∧ u.take 2 = ['/', '/']) then
      '/' :: '/' :: netloc ++
        (match u with
         | [] => []
         | c :: cs => if c != '/' then '/' :: c :: cs else c :: cs)
    else u
  let u2 := if scheme ≠ [] then scheme ++ ':' :: u1 else u1
  let u3 := if query ≠ [] then u2 ++ '?' :: query else u2
  if frag ≠ [] then u3 ++ '#' :: frag else u3

/-- CPython `urlunparse`: re-attach `;params` to the path, then unsplit. -/
def urlunparse (r : ParseResult) : List Char :=
  urlunsplitFn r.scheme r.netloc
    (if r.params ≠ [] then r.path ++ ';' :: r.params else r.path)
    r.query r.fragment

/-- CPython `ParseResult.hostname` for a bracket-aware netloc: the part of
the netloc after the last `@`, up to the first `:` (or the bracketed text
for IPv6 literals), lower-cased; `none` when empty (Python `None`). -/
def hostnameOpt (netloc : List Char) : Option (List Char) :=
  let hi := afterLastElem '@' netloc
  let h :=
    if ('[' : Char) ∈ hi then
      ((hi.dropWhile (fun c => c != '[')).tail).takeWhile (fun c => c != ']')
    else
      hi.takeWhile (fun c => c != ':')
  if h = [] then none else some (h.map Char.toLower)

/-- Model of `swap_xapi_host(url, host_addr)` from the source: parse `url`, replace
every occurrence of the (lower-cased) parsed hostname inside the netloc by
`host_addr`, and re-render. Returns `none` in the case where Python would
raise a `TypeError` (`hostname` is `None` because the netloc has no host). -/
def swap_xapi_host (url host_addr : String) : Option String :=
  let t := urlparse url.toList
  match hostnameOpt t.netloc with
  | none => none
  | some host =>
    some (String.mk (urlunparse { t with netloc := replaceAll host host_addr.toList t.netloc }))

/-! ### Error taxonomy

One constructor per distinct Python exception class raised by the module:
`XenapiException` (the module's own class, used for the configuration
check, connection failures, the ambiguous-name case and the zero-VCPU
case), `InstanceNotFoundException` from the generic inspector interface,
and the builtin `KeyError` / `IndexError` / `TypeError` that unguarded
dict/list indexing would raise. A propagated `XenAPI.Failure` is kept as
`apiFailure`. -/

/-- A `XenAPI.Failure` carries a list of detail strings. -/
structure ApiFailure where
  details : List String
  deriving DecidableEq, Repr

deriving instance DecidableEq for Except

inductive Err where
  | xenapiException (msg : String)
  | instanceNotFound (msg : String)
  | keyError (key : String)
  | indexError
  | typeError
  | apiFailure (f : ApiFailure)
  deriving DecidableEq, Repr

/-! ### Session establishment (`get_api_session`) -/

/-- The three `xenapi` configuration options read by `get_api_session`.
`connection_url` and `connection_password` are `StrOpt`s with no default,
so an unset option is Python `None`, modelled as `Option.none`. -/
structure Conf where
  connection_url : Option String
  connection_username : String
  connection_password : Option String

/-- Oracle for the XenAPI transport: the outcome of
`Session(url).login_with_password(username, password)` (or `xapi_local()`
for the sentinel url), keyed by the url the session was opened against.
Credentials are fixed for the whole `get_api_session` call, so they are
not parameters of the oracle. -/
structure XenEnv where
  login : String → Except ApiFailure Unit

/-- Model of `get_api_session(conf)`. Returns the url the established session is
logged into (the session handle is identified with its url in this model)
together with the list of urls login was attempted against, in order. -/
def get_api_session (env : XenEnv) (conf : Conf) : Except Err String × List String :=
  if (conf.connection_url = none ∨ conf.connection_url = some "") ∨
      conf.connection_password = none then
    (.error (.xenapiException "Must specify connection_url, and connection_password to use"), [])
  else
    let url := conf.connection_url.getD ""
    match env.login url with
    | .ok _ => (.ok url, [url])
    | .error e =>
      match e.details with
      | [] => (.error .indexError, [url])
      | d0 :: rest =>
        if d0 = "HOST_IS_SLAVE" then
          match rest with
          | [] => (.error .indexError, [url])
          | master :: _ =>
            match swap_xapi_host url master with
            | none => (.error .typeError, [url])
            | some url2 =>
              match env.login url2 with
              | .ok _ => (.ok url2, [url, url2])
              | .error es =>
                match es.details with
                | [] => (.error .indexError, [url, url2])
                | ed :: _ =>
                  (.error (.xenapiException ("Could not connect slave host: " ++ ed)),
                   [url, url2])
        else
          (.error (.xenapiException ("Could not connect to XenAPI: " ++ d0)), [url])

/-! ### Instance resolution (`_lookup_by_name`) -/

/-- Model of `_lookup_by_name`, parameterised by the list of VM references the
remote `VM.get_by_name_label` call returned. -/
def lookup_by_name (vm_refs : List String) (instance_name : String) : Except Err String :=
  match vm_refs with
  | [] => .error (.instanceNotFound ("VM " ++ instance_name ++ " not found in XenServer"))
  | [r] => .ok r
  | _ :: _ :: _ =>
    .error (.xenapiException ("Multiple VM " ++ instance_name ++ " found in XenServer"))

/-! ### CPU collection (`_get_cpu_usage`) -/

/-- Oracle for the per-VM remote calls `_get_cpu_usage` makes:
`VM.get_VCPUs_max` (already passed through Python `int()`) and
`VM.query_data_source` (already passed through Python `float()`, modelled
as a rational). -/
structure CpuEnv where
  vcpus_max : Int
  query_data_source : String → Except ApiFailure ℚ

/-- Model of the `cpu_util += float(...)` accumulation loop over
`range(vcpus_number)`; a `XenAPI.Failure` from any query propagates. -/
def sumCpu (env : CpuEnv) : Nat → Except ApiFailure ℚ
  | 0 => .ok 0
  | n + 1 =>
    match sumCpu env n with
    | .error e => .error e
    | .ok acc =>
      match env.query_data_source ("cpu" ++ toString n) with
      | .error e => .error e
      | .ok v => .ok (acc + v)

/-- Model of `_get_cpu_usage(vm_ref, instance_name)`. -/
def get_cpu_usage (env : CpuEnv) (instance_name : String) : Except Err ℚ :=
  if env.vcpus_max ≤ 0 then
    .error (.xenapiException ("Could not get VM " ++ instance_name ++ " CPU number"))
  else
    match sumCpu env env.vcpus_max.toNat with
    | .error e => .error (.apiFailure e)
    | .ok s => .ok (s / (env.vcpus_max : ℚ) * 100)

/-! ### Memory collection (`_get_memory_usage`) -/

/-- Oracle for the data-source queries `_get_memory_usage` makes. -/
structure MemEnv where
  query_data_source : String → Except ApiFailure ℚ

/-- Model of `_get_memory_usage(vm_ref)`: the `"memory"` query propagates failure;
only a `XenAPI.Failure` of the `"memory_internal_free"` query is caught
and replaced by `0`. -/
def get_memory_usage (env : MemEnv) : Except Err ℚ :=
  match env.query_data_source "memory" with
  | .error e => .error (.apiFailure e)
  | .ok total_mem =>
    let free_mem : ℚ :=
      match env.query_data_source "memory_internal_free" with
      | .ok f => f
      | .error _ => 0
    .ok ((total_mem - free_mem * 1024) / (1024 * 1024))

/-! ### Network counters (`inspect_vnics`) -/

/-- The fields of a `VIF.get_record` result that `inspect_vnics` reads. -/
structure VifRec where
  uuid : String
  MAC : String
  device : String
  deriving DecidableEq, Repr

/-- One `{bw_in, bw_out}` entry of the bandwidth plugin's snapshot. -/
structure Bw where
  bw_in : Int
  bw_out : Int
  deriving DecidableEq, Repr

/-- Record type `virt_inspector.Interface`. -/
structure Interface where
  name : String
  mac : String
  fref : Option String
  parameters : Option String
  deriving DecidableEq, Repr

/-- Record type `virt_inspector.InterfaceStats` (the fields `inspect_vnics` sets). -/
structure InterfaceStats where
  rx_bytes : Int
  rx_packets : Int
  rx_drop : Int
  rx_errors : Int
  tx_bytes : Int
  tx_packets : Int
  tx_drop : Int
  tx_errors : Int
  deriving DecidableEq, Repr

/-- Oracle for the remote calls `inspect_vnics` makes. `bw_all` is the
deserialized result of the single `bandwidth.fetch_all_bandwidth` plugin
call: a dict keyed by domain id whose values are dicts keyed by device id,
modelled as association lists (a missing key is Python `KeyError`). -/
structure VnicEnv where
  vm_refs : List String
  get_domid : String → String
  get_VIFs : String → List String
  vif_record : String → VifRec
  bw_all : List (String × List (String × Bw))

/-- The per-VIF loop body of `inspect_vnics`: build the `Interface` and
`InterfaceStats` records, looking the device up in the snapshot fetched
before the loop. The trace records one `"VIF.get_record"` entry per
iteration that starts. -/
def vnicLoop (env : VnicEnv) (dom_id : String) :
    List String → Except Err (List (Interface × InterfaceStats)) × List String
  | [] => (.ok [], [])
  | ref :: rest =>
    let vr := env.vif_record ref
    match List.lookup dom_id env.bw_all with
    | none => (.error (.keyError dom_id), ["VIF.get_record"])
    | some dev_map =>
      match List.lookup vr.device dev_map with
      | none => (.error (.keyError vr.device), ["VIF.get_record"])
      | some bw =>
        match vnicLoop env dom_id rest with
        | (.ok l, tr) =>
          (.ok ((⟨vr.uuid, vr.MAC, none, none⟩,
                 ⟨bw.bw_in, -1, -1, -1, bw.bw_out, -1, -1, -1⟩) :: l),
           "VIF.get_record" :: tr)
        | (.error e, tr) => (.error e, "VIF.get_record" :: tr)

/-- Model of `inspect_vnics(instance)`, with the generator consumed into a list.
The second component is the trace of remote operations performed, in
order; the single serialized plugin call appears as
`"bandwidth.fetch_all_bandwidth"`. -/
def inspect_vnics (env : VnicEnv) (instance_name : String) :
    Except Err (List (Interface × InterfaceStats)) × List String :=
  match lookup_by_name env.vm_refs instance_name with
  | .error e => (.error e, ["VM.get_by_name_label"])
  | .ok vm_ref =>
    let dom_id := env.get_domid vm_ref
    let vif_refs := env.get_VIFs vm_ref
    let res := vnicLoop env dom_id vif_refs
    (res.1,
     ["VM.get_by_name_label", "VM.get_domid", "VM.get_VIFs",
      "bandwidth.fetch_all_bandwidth"] ++ res.2)

/-! ### Disk rates (`inspect_disk_rates`) -/

/-- The field of a `VBD.get_record` result that `inspect_disk_rates`
reads. -/
structure VbdRec where
  device : String
  deriving DecidableEq, Repr

/-- Record type `virt_inspector.Disk`. -/
structure Disk where
  device : String
  deriving DecidableEq, Repr

/-- Record type `virt_inspector.DiskRateStats`. -/
structure DiskRateStats where
  read_bytes_rate : ℚ
  read_requests_rate : ℚ
  write_bytes_rate : ℚ
  write_requests_rate : ℚ
  deriving DecidableEq, Repr

/-- Oracle for the remote calls `inspect_disk_rates` makes. -/
structure DiskEnv where
  vm_refs : List String
  get_VBDs : String → List String
  vbd_record : String → VbdRec
  query_data_source : String → Except ApiFailure ℚ

/-- The per-VBD loop body of `inspect_disk_rates`. -/
def diskLoop (env : DiskEnv) : List String → Except Err (List (Disk × DiskRateStats))
  | [] => .ok []
  | ref :: rest =>
    let vr := env.vbd_record ref
    match env.query_data_source ("vbd_" ++ vr.device ++ "_read") with
    | .error e => .error (.apiFailure e)
    | .ok r =>
      match env.query_data_source ("vbd_" ++ vr.device ++ "_write") with
      | .error e => .error (.apiFailure e)
      | .ok w =>
        match diskLoop env rest with
        | .ok l => .ok ((⟨vr.device⟩, ⟨r, 0, w, 0⟩) :: l)
        | .error e => .error e

/-- Model of `inspect_disk_rates(instance)`, with the generator consumed into a
list. -/
def inspect_disk_rates (env : DiskEnv) (instance_name : String) :
    Except Err (List (Disk × DiskRateStats)) :=
  match lookup_by_name env.vm_refs instance_name with
  | .error e => .error e
  | .ok vm_ref => diskLoop env (env.get_VBDs vm_ref)

/-! ### Lemmas about the generic helpers -/

theorem startsWith_self_append (a t : List Char) : startsWith a (a ++ t) = true := by
  induction a with
  | nil => rfl
  | cons c cs ih => simp [startsWith, ih]

theorem exists_of_startsWith {pat l : List Char} (h : startsWith pat l = true) :
    ∃ t, l = pat ++ t := by
  induction pat generalizing l with
  | nil => exact ⟨l, rfl⟩
  | cons p ps ih =>
    cases l with
    | nil => simp [startsWith] at h
    | cons c cs =>
      simp only [startsWith, Bool.and_eq_true, beq_iff_eq] at h
      obtain ⟨t, ht⟩ := ih h.2
      exact ⟨t, by simp [h.1, ht]⟩

theorem exists_of_hasSubstr {pat l : List Char} (h : hasSubstr pat l = true) :
    ∃ a b, l = a ++ pat ++ b := by
  induction l with
  | nil =>
    simp only [hasSubstr, List.isEmpty_iff] at h
    exact ⟨[], [], by simp [h]⟩
  | cons c cs ih =>
    simp only [hasSubstr, Bool.or_eq_true] at h
    rcases h with h | h
    · obtain ⟨t, ht⟩ := exists_of_startsWith h
      exact ⟨[], t, by simp [ht]⟩
    · obtain ⟨a, b, hab⟩ := ih h
      exact ⟨c :: a, b, by simp [hab]⟩

theorem hasSubstr_cons_elim {pat : List Char} {c : Char} {cs : List Char}
    (h : hasSubstr pat (c :: cs) = false) :
    startsWith pat (c :: cs) = false ∧ hasSubstr pat cs = false := by
  have := h
  simp only [hasSubstr, Bool.or_eq_false_iff] at this
  exact this

theorem replaceAllFuel_no_occ (pat rep : List Char) :
    ∀ (l : List Char) (fuel : Nat), l.length ≤ fuel →
      hasSubstr pat l = false → replaceAllFuel pat rep fuel l = l := by
  intro l
  induction l with
  | nil => intro fuel _ _; cases fuel <;> rfl
  | cons c cs ih =>
    intro fuel hf h
    cases fuel with
    | zero => simp at hf
    | succ fuel =>
      obtain ⟨h1, h2⟩ := hasSubstr_cons_elim h
      simp only [replaceAllFuel, h1, Bool.false_eq_true, if_false]
      have : cs.length ≤ fuel := by simpa using hf
      rw [ih fuel this h2]

theorem replaceAll_no_occ {pat : List Char} (rep : List Char) {l : List Char}
    (h : hasSubstr pat l = false) : replaceAll pat rep l = l :=
  replaceAllFuel_no_occ pat rep l l.length (Nat.le_refl _) h

/-- The key behaviour used by `swap_xapi_host` on a well-formed netloc:
replacing a nonempty `pat` in `pat ++ t` when `pat` does not occur again
in `t` substitutes exactly the leading copy. -/
theorem replaceAll_head {p0 : Char} {ps : List Char} (rep : List Char) {t : List Char}
    (h : hasSubstr (p0 :: ps) t = false) :
    replaceAll (p0 :: ps) rep ((p0 :: ps) ++ t) = rep ++ t := by
  show replaceAllFuel (p0 :: ps) rep ((p0 :: ps) ++ t).length ((p0 :: ps) ++ t) = rep ++ t
  have hlen : ((p0 :: ps) ++ t).length = (ps ++ t).length + 1 := by simp
  rw [hlen]
  have hsw : startsWith (p0 :: ps) (p0 :: (ps ++ t)) = true := startsWith_self_append _ _
  simp only [List.cons_append, List.append_eq, replaceAllFuel, hsw, if_true,
    List.length_cons, Nat.add_sub_cancel]
  rw [List.drop_left ps t]
  have hft : t.length ≤ (ps ++ t).length := by simp
  rw [replaceAllFuel_no_occ (p0 :: ps) rep t (ps ++ t).length hft h]

theorem takeWhile_all {P : Char → Bool} {l : List Char} (h : ∀ c ∈ l, P c = true) :
    l.takeWhile P = l := by
  induction l with
  | nil => rfl
  | cons c cs ih =>
    simp only [List.takeWhile_cons, h c (by simp), if_true]
    rw [ih (fun x hx => h x (by simp [hx]))]

theorem dropWhile_all {P : Char → Bool} {l : List Char} (h : ∀ c ∈ l, P c = true) :
    l.dropWhile P = [] := by
  induction l with
  | nil => rfl
  | cons c cs ih =>
    simp only [List.dropWhile_cons, h c (by simp), if_true]
    exact ih (fun x hx => h x (by simp [hx]))

theorem takeWhile_append_stop {P : Char → Bool} {a b : List Char}
    (ha : ∀ c ∈ a, P c = true) (hb : ∀ c, b.head? = some c → P c = false) :
    (a ++ b).takeWhile P = a := by
  induction a with
  | nil =>
    cases b with
    | nil => rfl
    | cons c cs => simp [List.takeWhile_cons, hb c rfl]
  | cons c cs ih =>
    simp only [List.cons_append, List.takeWhile_cons, ha c (by simp), if_true]
    rw [ih (fun x hx => ha x (by simp [hx]))]

theorem dropWhile_append_stop {P : Char → Bool} {a b : List Char}
    (ha : ∀ c ∈ a, P c = true) (hb : ∀ c, b.head? = some c → P c = false) :
    (a ++ b).dropWhile P = b := by
  induction a with
  | nil =>
    cases b with
    | nil => rfl
    | cons c cs => simp [List.dropWhile_cons, hb c rfl]
  | cons c cs ih =>
    simp only [List.cons_append, List.dropWhile_cons, ha c (by simp), if_true]
    exact ih (fun x hx => ha x (by simp [hx]))

theorem map_toLower_self {l : List Char} (h : ∀ c ∈ l, c.toLower = c) :
    l.map Char.toLower = l := by
  induction l with
  | nil => rfl
  | cons c cs ih =>
    simp only [List.map_cons, h c (by simp)]
    rw [ih (fun x hx => h x (by simp [hx]))]

theorem afterLastElem_of_not_mem {x : Char} {l : List Char} (h : x ∉ l) :
    afterLastElem x l = l := by
  unfold afterLastElem
  rw [takeWhile_all, List.reverse_reverse]
  intro c hc
  have : c ∈ l := by simpa using hc
  simp only [bne_iff_ne, ne_eq]
  intro he; exact h (he ▸ this)

theorem mem_of_mem_takeWhile {P : Char → Bool} {l : List Char} {c : Char}
    (h : c ∈ l.takeWhile P) : c ∈ l := by
  induction l with
  | nil => simp [List.takeWhile] at h
  | cons d ds ih =>
    rw [List.takeWhile_cons] at h
    by_cases hp : P d = true
    · simp only [hp, if_true, List.mem_cons] at h
      rcases h with h | h
      · simp [h]
      · simp [ih h]
    · simp [Bool.not_eq_true] at hp
      simp [hp] at h

theorem mem_of_mem_afterLastElem {x : Char} {l : List Char} {c : Char}
    (h : c ∈ afterLastElem x l) : c ∈ l := by
  unfold afterLastElem at h
  rw [List.mem_reverse] at h
  have := mem_of_mem_takeWhile h
  simpa using this

/-! ### Well-formedness predicates for connection URLs

These describe the URL shapes of the XAPI connection protocol — the
module's own docstring: "The connection URL is served by XAPI and doesn't
support having a path for the connection url after the port. And
username/password will be pass separately." -/

/-- A character allowed in a plain (bracket-free, userinfo-free) host. -/
def plainHostChar (c : Char) : Bool :=
  !(c == ':') && !(c == '/') && !(c == '?') && !(c == '#') && !(c == '@') && !(c == '[')

/-- An ASCII decimal digit (stated over the codepoint). -/
def digitChar (c : Char) : Bool :=
  48 ≤ c.toNat && c.toNat ≤ 57

/-- A well-formed, already lower-case scheme (CPython keeps it verbatim). -/
def SchemeOK (s : List Char) : Prop :=
  s.head?.any Char.isAlpha = true ∧ ∀ c ∈ s, schemeChar c = true ∧ c.toLower = c

/-- A nonempty bracket-free host with no separator characters; the
lower-case requirement is stated separately where needed. -/
def HostShape (h : List Char) : Prop :=
  h ≠ [] ∧ ∀ c ∈ h, plainHostChar c = true

/-- A nonempty all-lower-case host. -/
def HostOK (h : List Char) : Prop :=
  HostShape h ∧ ∀ c ∈ h, c.toLower = c

/-- An optional `:port` segment with decimal digits. -/
def PortOK (p : List Char) : Prop :=
  p = [] ∨ (p.head? = some ':' ∧ ∀ c ∈ p.tail, digitChar c = true)

/-- An optional path, starting with `/`, free of `?`, `#` and `;`. -/
def PathOK (pa : List Char) : Prop :=
  (pa = [] ∨ pa.head? = some '/') ∧
  ∀ c ∈ pa, (!(c == '?') && !(c == '#') && !(c == ';')) = true

/-- An optional nonempty query with its leading `?`, free of `#`. -/
def QueryOK (q : List Char) : Prop :=
  q = [] ∨ (q.head? = some '?' ∧ q.tail ≠ [] ∧ ∀ c ∈ q, (c == '#') = false)

/-- An optional nonempty fragment with its leading `#`. -/
def FragOK (fr : List Char) : Prop :=
  fr = [] ∨ (fr.head? = some '#' ∧ fr.tail ≠ [])

/-- Assemble a connection URL from scheme, netloc and trailing parts. -/
def renderUrl (s nl pa q fr : List Char) : List Char :=
  s ++ ':' :: '/' :: '/' :: (nl ++ (pa ++ (q ++ fr)))

instance (s : List Char) : Decidable (SchemeOK s) := by
  unfold SchemeOK; infer_instance

instance (h : List Char) : Decidable (HostShape h) := by
  unfold HostShape; infer_instance

instance (h : List Char) : Decidable (HostOK h) := by
  unfold HostOK; infer_instance

instance (p : List Char) : Decidable (PortOK p) := by
  unfold PortOK; infer_instance

instance (pa : List Char) : Decidable (PathOK pa) := by
  unfold PathOK; infer_instance

instance (q : List Char) : Decidable (QueryOK q) := by
  unfold QueryOK; infer_instance

instance (fr : List Char) : Decidable (FragOK fr) := by
  unfold FragOK; infer_instance

/-! ### Character facts -/

theorem digit_plainHostChar {c : Char} (hd : digitChar c = true) : plainHostChar c = true := by
  have h1 : (c == ':') = false := by
    apply beq_eq_false_iff_ne.mpr; intro he; subst he; exact absurd hd (by decide)
  have h2 : (c == '/') = false := by
    apply beq_eq_false_iff_ne.mpr; intro he; subst he; exact absurd hd (by decide)
  have h3 : (c == '?') = false := by
    apply beq_eq_false_iff_ne.mpr; intro he; subst he; exact absurd hd (by decide)
  have h4 : (c == '#') = false := by
    apply beq_eq_false_iff_ne.mpr; intro he; subst he; exact absurd hd (by decide)
  have h5 : (c == '@') = false := by
    apply beq_eq_false_iff_ne.mpr; intro he; subst he; exact absurd hd (by decide)
  have h6 : (c == '[') = false := by
    apply beq_eq_false_iff_ne.mpr; intro he; subst he; exact absurd hd (by decide)
  simp [plainHostChar, h1, h2, h3, h4, h5, h6]

theorem plain_ne_of {c : Char} (h : plainHostChar c = true) :
    c ≠ ':' ∧ c ≠ '/' ∧ c ≠ '?' ∧ c ≠ '#' ∧ c ≠ '@' ∧ c ≠ '[' := by
  simp only [plainHostChar, Bool.and_eq_true, Bool.not_eq_true', beq_eq_false_iff_ne, ne_eq] at h
  exact ⟨h.1.1.1.1.1, h.1.1.1.1.2, h.1.1.1.2, h.1.1.2, h.1.2, h.2⟩

theorem netlocStop_of_plain {c : Char} (h : plainHostChar c = true) : netlocStop c = false := by
  obtain ⟨-, h2, h3, h4, -, -⟩ := plain_ne_of h
  simp [netlocStop, h2, h3, h4]

theorem toNat_ofNat_of_lt {n : Nat} (h : n < 55296) : (Char.ofNat n).toNat = n := by
  have hv : n.isValidChar := Or.inl h
  rw [Char.ofNat, dif_pos hv]
  rfl

theorem toLower_cases (c : Char) :
    Char.toLower c = c ∨
      (65 ≤ c.toNat ∧ c.toNat ≤ 90 ∧ (Char.toLower c).toNat = c.toNat + 32) := by
  simp only [Char.toLower]
  split
  · next h => exact Or.inr ⟨h.1, h.2, toNat_ofNat_of_lt (by omega)⟩
  · exact Or.inl rfl

/-- Lowercasing never produces `':'` from a character other than `':'`. -/
theorem toLower_ne_colon {c : Char} (h : c ≠ ':') : Char.toLower c ≠ ':' := by
  intro he
  rcases toLower_cases c with hc | ⟨h1, h2, h3⟩
  · exact h (hc ▸ he)
  · rw [he] at h3
    have : (':' : Char).toNat = 58 := by decide
    omega

/-- Lowercasing a character it actually changes never yields a digit. -/
theorem toLower_not_digit {c : Char} (h : Char.toLower c ≠ c) :
    digitChar (Char.toLower c) = false := by
  rcases toLower_cases c with hc | ⟨h1, h2, h3⟩
  · exact absurd hc h
  · simp only [digitChar, Bool.and_eq_false_iff, Nat.not_le]
    right
    simp only [decide_eq_false_iff_not, Nat.not_le]
    omega

theorem eq_self_of_map_eq {f : Char → Char} {l : List Char} (h : l.map f = l) :
    ∀ c ∈ l, f c = c := by
  induction l with
  | nil => simp
  | cons c cs ih =>
    simp only [List.map_cons, List.cons.injEq] at h
    intro x hx
    rcases List.mem_cons.mp hx with rfl | hx
    · exact h.1
    · exact ih h.2 x hx

/-! ### The central fact behind the case-sensitivity quirk: for a host
containing an uppercase letter, the lower-cased hostname computed by
`urlparse` does not occur in the original netloc at all. -/

theorem lower_not_substr {h p : List Char}
    (hh : ∀ c ∈ h, plainHostChar c = true)
    (hp : PortOK p)
    (hup : ∃ c ∈ h, Char.toLower c ≠ c) :
    hasSubstr (h.map Char.toLower) (h ++ p) = false := by
  cases hcon : hasSubstr (h.map Char.toLower) (h ++ p) with
  | false => rfl
  | true =>
    exfalso
    obtain ⟨a, b, heq⟩ := exists_of_hasSubstr hcon
    have hlen : (h.map Char.toLower).length = h.length := List.length_map h _
    have hlens : h.length + p.length = a.length + ((h.map Char.toLower).length + b.length) := by
      have := congrArg List.length heq
      simpa [List.length_append] using this
    have hpl : p.length = a.length + b.length := by omega
    rcases Nat.eq_zero_or_pos a.length with ha0 | hapos
    · -- the occurrence is at the very start: then h equals its own lower-casing
      have ha : a = [] := List.length_eq_zero.mp ha0
      subst ha
      simp only [List.nil_append] at heq
      have hinj := List.append_inj heq (by omega)
      obtain ⟨c, hc, hcl⟩ := hup
      exact hcl (eq_self_of_map_eq hinj.1.symm c hc)
    · -- the occurrence starts strictly inside the netloc
      have hale : a.length ≤ p.length := by omega
      have hpne : p ≠ [] := by
        intro he
        rw [he] at hpl
        simp only [List.length_nil] at hpl
        omega
      rcases hp with rfl | ⟨hhead, hdig⟩
      · exact hpne rfl
      cases p with
      | nil => exact hpne rfl
      | cons c0 pd =>
        have hc0 : c0 = ':' := by simpa using hhead
        subst hc0
        have hdig' : ∀ c ∈ pd, digitChar c = true := by simpa using hdig
        rcases le_or_lt a.length h.length with hah | hah
        · -- the occurrence overlaps the ':' separator, but toLower never yields ':'
          have hta : (h ++ ':' :: pd).take a.length = a := by
            rw [heq, List.append_assoc, List.take_left' rfl]
          rw [List.take_append_of_le_length hah] at hta
          have heq2 : h.drop a.length ++ ':' :: pd = h.map Char.toLower ++ b := by
            have : h.take a.length ++ (h.drop a.length ++ ':' :: pd) =
                h.take a.length ++ (h.map Char.toLower ++ b) := by
              rw [← List.append_assoc, List.take_append_drop, heq, hta, List.append_assoc]
            exact List.append_cancel_left this
          have hcolon : ':' ∈ h.map Char.toLower := by
            have hlow : h.map Char.toLower =
                h.drop a.length ++ (':' :: pd).take a.length := by
              have h1 : (h.drop a.length ++ ':' :: pd).take (h.map Char.toLower).length =
                  h.drop a.length ++ (':' :: pd).take a.length := by
                rw [hlen]
                have hsplit : h.length = (h.drop a.length).length + a.length := by
                  simp [List.length_drop]; omega
                rw [hsplit, List.take_append]
              have h2 : (h.map Char.toLower ++ b).take (h.map Char.toLower).length =
                  h.map Char.toLower := List.take_left _ _
              rw [← h1, heq2, h2]
            rw [hlow]
            have : (':' :: pd).take a.length = ':' :: pd.take (a.length - 1) := by
              cases hn : a.length with
              | zero => omega
              | succ k => simp
            rw [this]
            simp
          obtain ⟨c, hc, hcl⟩ := List.mem_map.mp hcolon
          exact toLower_ne_colon (plain_ne_of (hh c hc)).1 hcl
        · -- the occurrence lies wholly inside the digits of the port
          have h1le : h.length + 1 ≤ a.length := hah
          have hta : a.take (h.length + 1) = h ++ [':'] := by
            have e1 : (h ++ ':' :: pd).take (h.length + 1) = a.take (h.length + 1) := by
              rw [heq, List.append_assoc]
              rw [List.take_append_of_le_length h1le]
            have e2 : (h ++ ':' :: pd).take (h.length + 1) = h ++ [':'] := by
              rw [List.take_append]
              simp
            rw [← e1, e2]
          have heq3 : pd = a.drop (h.length + 1) ++ h.map Char.toLower ++ b := by
            have : (h ++ [':']) ++ pd =
                (h ++ [':']) ++ (a.drop (h.length + 1) ++ (h.map Char.toLower ++ b)) := by
              have hsplit : a = a.take (h.length + 1) ++ a.drop (h.length + 1) :=
                (List.take_append_drop _ _).symm
              calc (h ++ [':']) ++ pd = h ++ ':' :: pd := by simp
                _ = a ++ h.map Char.toLower ++ b := heq
                _ = (a.take (h.length + 1) ++ a.drop (h.length + 1)) ++
                      h.map Char.toLower ++ b := by rw [← hsplit]
                _ = (h ++ [':']) ++ (a.drop (h.length + 1) ++ (h.map Char.toLower ++ b)) := by
                      rw [hta]; simp [List.append_assoc]
            have := List.append_cancel_left this
            rw [this]; simp [List.append_assoc]
          obtain ⟨c, hc, hcl⟩ := hup
          have hmem : Char.toLower c ∈ pd := by
            rw [heq3]
            have : Char.toLower c ∈ h.map Char.toLower := List.mem_map_of_mem _ hc
            simp [this]
          exact absurd (hdig' _ hmem) (by simp [toLower_not_digit hcl])

/-! ### Parsing a well-formed connection URL -/

theorem port_chars {p : List Char} (hp : PortOK p) :
    ∀ c ∈ p, c ≠ '@' ∧ c ≠ '[' ∧ netlocStop c = false ∧ (c == ';') = false := by
  rcases hp with rfl | ⟨hhead, hdig⟩
  · simp
  · intro c hc
    cases p with
    | nil => simp at hc
    | cons c0 pd =>
      have hc0 : c0 = ':' := by simpa using hhead
      subst hc0
      rcases List.mem_cons.mp hc with rfl | hc
      · refine ⟨by decide, by decide, by decide, by decide⟩
      · have hd : digitChar c = true := hdig c (by simpa using hc)
        have hpl := plain_ne_of (digit_plainHostChar hd)
        exact ⟨hpl.2.2.2.2.1, hpl.2.2.2.2.2,
          netlocStop_of_plain (digit_plainHostChar hd), by
            apply beq_eq_false_iff_ne.mpr; intro he; subst he
            exact absurd hd (by decide)⟩

theorem splitScheme_render {s : List Char} (r : List Char) (hs : SchemeOK s) :
    splitSchemeFn (s ++ ':' :: r) = (s, r) := by
  obtain ⟨hhead, hall⟩ := hs
  cases s with
  | nil => simp at hhead
  | cons c cs =>
    have halpha : c.isAlpha = true := by simpa using hhead
    have ha : ∀ x ∈ c :: cs, schemeChar x = true := fun x hx => (hall x hx).1
    have hb : ∀ x, (':' :: r).head? = some x → schemeChar x = false := by
      intro x hx
      have hx2 : ':' = x := by simpa using hx
      subst hx2; decide
    have hdw := @dropWhile_append_stop schemeChar (c :: cs) (':' :: r) ha hb
    have htw := @takeWhile_append_stop schemeChar (c :: cs) (':' :: r) ha hb
    simp only [splitSchemeFn, hdw, htw, halpha, if_true]
    rw [map_toLower_self (fun x hx => (hall x hx).2)]

theorem splitNetloc_render {nl : List Char} (rest : List Char)
    (hnl : ∀ c ∈ nl, netlocStop c = false)
    (hrest : ∀ c, rest.head? = some c → netlocStop c = true) :
    splitNetlocFn ('/' :: '/' :: (nl ++ rest)) = (nl, rest) := by
  have ha : ∀ c ∈ nl, (!netlocStop c) = true := by
    intro c hc; rw [hnl c hc]; rfl
  have hb : ∀ c, rest.head? = some c → (!netlocStop c) = false := by
    intro c hc; rw [hrest c hc]; rfl
  simp only [splitNetlocFn]
  rw [takeWhile_append_stop ha hb, dropWhile_append_stop ha hb]

theorem splitParams_no_semi {u : List Char} (h : ∀ c ∈ u, (c == ';') = false) :
    splitParamsFn u = (u, []) := by
  have hs : (';' : Char) ∉ u := by
    intro hm; have := h _ hm; simp at this
  unfold splitParamsFn
  by_cases hsl : ('/' : Char) ∈ u
  · rw [if_pos hsl, if_neg]
    intro hm
    exact hs (mem_of_mem_afterLastElem hm)
  · rw [if_neg hsl, if_neg hs]

theorem trailing_head_stop {pa q fr : List Char}
    (hpa : PathOK pa) (hq : QueryOK q) (hf : FragOK fr) :
    ∀ c, (pa ++ (q ++ fr)).head? = some c → netlocStop c = true := by
  intro c hc
  cases pa with
  | cons c0 pa' =>
    have h0 : c0 = '/' := by
      rcases hpa.1 with h | h
      · simp at h
      · simpa using h
    subst h0
    have hc2 : '/' = c := by simpa using hc
    subst hc2; decide
  | nil =>
    simp only [List.nil_append] at hc
    cases q with
    | cons c0 q' =>
      have h0 : c0 = '?' := by
        rcases hq with h | h
        · simp at h
        · simpa using h.1
      subst h0
      have hc2 : '?' = c := by simpa using hc
      subst hc2; decide
    | nil =>
      simp only [List.nil_append] at hc
      cases fr with
      | nil => simp at hc
      | cons c0 fr' =>
        have h0 : c0 = '#' := by
          rcases hf with h | h
          · simp at h
          · simpa using h.1
        subst h0
        have hc2 : '#' = c := by simpa using hc
        subst hc2; decide

theorem urlparse_render {s nl pa q fr : List Char}
    (hs : SchemeOK s)
    (hnl : ∀ c ∈ nl, netlocStop c = false)
    (hpa : PathOK pa) (hq : QueryOK q) (hf : FragOK fr) :
    urlparse (renderUrl s nl pa q fr) = ⟨s, nl, pa, [], q.tail, fr.tail⟩ := by
  have hq_hash : ∀ c ∈ q, (c == '#') = false := by
    rcases hq with rfl | ⟨h1, h2, h3⟩
    · simp
    · exact h3
  have hstep1 := splitScheme_render ('/' :: '/' :: (nl ++ (pa ++ (q ++ fr)))) hs
  have hstep2 := splitNetloc_render (pa ++ (q ++ fr)) hnl (trailing_head_stop hpa hq hf)
  have hstep3 : splitFirstAt '#' (pa ++ (q ++ fr)) = (pa ++ q, fr) := by
    have ha : ∀ c ∈ pa ++ q, (c != '#') = true := by
      intro c hc
      rcases List.mem_append.mp hc with hc | hc
      · have := hpa.2 c hc
        simp only [Bool.and_eq_true, Bool.not_eq_true'] at this
        simp [beq_eq_false_iff_ne.mp this.1.2]
      · simp [beq_eq_false_iff_ne.mp (hq_hash c hc)]
    have hb : ∀ c, fr.head? = some c → (c != '#') = false := by
      intro c hc
      rcases hf with rfl | ⟨h1, h2⟩
      · simp at hc
      · rw [hc] at h1
        have hcc : c = '#' := Option.some.inj h1
        subst hcc; decide
    unfold splitFirstAt
    rw [show pa ++ (q ++ fr) = (pa ++ q) ++ fr by simp,
      takeWhile_append_stop ha hb, dropWhile_append_stop ha hb]
  have hstep4 : splitFirstAt '?' (pa ++ q) = (pa, q) := by
    have ha : ∀ c ∈ pa, (c != '?') = true := by
      intro c hc
      have := hpa.2 c hc
      simp only [Bool.and_eq_true, Bool.not_eq_true'] at this
      simp [beq_eq_false_iff_ne.mp this.1.1]
    have hb : ∀ c, q.head? = some c → (c != '?') = false := by
      intro c hc
      rcases hq with rfl | ⟨h1, h2, h3⟩
      · simp at hc
      · rw [hc] at h1
        have hcc : c = '?' := Option.some.inj h1
        subst hcc; decide
    unfold splitFirstAt
    rw [takeWhile_append_stop ha hb, dropWhile_append_stop ha hb]
  have hstep5 : splitParamsFn pa = (pa, []) := by
    apply splitParams_no_semi
    intro c hc
    have := hpa.2 c hc
    simp only [Bool.and_eq_true, Bool.not_eq_true'] at this
    exact this.2
  simp only [urlparse, renderUrl, hstep1, hstep2, hstep3, hstep4, hstep5]

theorem hostnameOpt_render {h p : List Char} (hne : h ≠ [])
    (hh : ∀ c ∈ h, plainHostChar c = true) (hp : PortOK p) :
    hostnameOpt (h ++ p) = some (h.map Char.toLower) := by
  have hat : ('@' : Char) ∉ h ++ p := by
    intro hm
    rcases List.mem_append.mp hm with hm | hm
    · exact (plain_ne_of (hh _ hm)).2.2.2.2.1 rfl
    · exact (port_chars hp _ hm).1 rfl
  have hbr : ('[' : Char) ∉ h ++ p := by
    intro hm
    rcases List.mem_append.mp hm with hm | hm
    · exact (plain_ne_of (hh _ hm)).2.2.2.2.2 rfl
    · exact (port_chars hp _ hm).2.1 rfl
  have ha : ∀ c ∈ h, (c != ':') = true := by
    intro c hc; simp [(plain_ne_of (hh c hc)).1]
  have hb : ∀ c, p.head? = some c → (c != ':') = false := by
    intro c hc
    rcases hp with rfl | ⟨h1, h2⟩
    · simp at hc
    · rw [hc] at h1
      have hcc : c = ':' := Option.some.inj h1
      subst hcc; decide
  have htw := takeWhile_append_stop ha hb
  simp only [hostnameOpt, afterLastElem_of_not_mem hat, if_neg hbr, htw]
  rw [if_neg hne]

theorem urlunparse_render {s nl pa q fr : List Char}
    (hs : s ≠ []) (hnl : nl ≠ [])
    (hpa : pa = [] ∨ pa.head? = some '/')
    (hq : QueryOK q) (hf : FragOK fr) :
    urlunparse ⟨s, nl, pa, [], q.tail, fr.tail⟩ = renderUrl s nl pa q fr := by
  have hpa2 : pa = [] ∨ ∃ cs, pa = '/' :: cs := by
    rcases hpa with rfl | hhd
    · exact Or.inl rfl
    · cases pa with
      | nil => exact Or.inl rfl
      | cons c cs =>
        have hcc : c = '/' := Option.some.inj hhd
        exact Or.inr ⟨cs, by rw [hcc]⟩
  have hq2 : q = [] ∨ ∃ qt, q = '?' :: qt ∧ qt ≠ [] := by
    rcases hq with rfl | ⟨h1, h2, _⟩
    · exact Or.inl rfl
    · cases q with
      | nil => exact Or.inl rfl
      | cons c qt =>
        have hcc : c = '?' := Option.some.inj h1
        exact Or.inr ⟨qt, by rw [hcc], by simpa using h2⟩
  have hf2 : fr = [] ∨ ∃ ft, fr = '#' :: ft ∧ ft ≠ [] := by
    rcases hf with rfl | ⟨h1, h2⟩
    · exact Or.inl rfl
    · cases fr with
      | nil => exact Or.inl rfl
      | cons c ft =>
        have hcc : c = '#' := Option.some.inj h1
        exact Or.inr ⟨ft, by rw [hcc], by simpa using h2⟩
  rcases hpa2 with rfl | ⟨cs, rfl⟩
  · rcases hq2 with rfl | ⟨qt, rfl, hqt⟩
    · rcases hf2 with rfl | ⟨ft, rfl, hft⟩
      · simp [urlunparse, urlunsplitFn, renderUrl, hs, hnl, List.append_assoc]
      · simp [urlunparse, urlunsplitFn, renderUrl, hs, hnl, hft, List.append_assoc]
    · rcases hf2 with rfl | ⟨ft, rfl, hft⟩
      · simp [urlunparse, urlunsplitFn, renderUrl, hs, hnl, hqt, List.append_assoc]
      · simp [urlunparse, urlunsplitFn, renderUrl, hs, hnl, hqt, hft, List.append_assoc]
  · rcases hq2 with rfl | ⟨qt, rfl, hqt⟩
    · rcases hf2 with rfl | ⟨ft, rfl, hft⟩
      · simp [urlunparse, urlunsplitFn, renderUrl, hs, hnl, List.append_assoc]
      · simp [urlunparse, urlunsplitFn, renderUrl, hs, hnl, hft, List.append_assoc]
    · rcases hf2 with rfl | ⟨ft, rfl, hft⟩
      · simp [urlunparse, urlunsplitFn, renderUrl, hs, hnl, hqt, List.append_assoc]
      · simp [urlunparse, urlunsplitFn, renderUrl, hs, hnl, hqt, hft, List.append_assoc]

theorem scheme_ne_nil {s : List Char} (hs : SchemeOK s) : s ≠ [] := by
  intro he
  subst he
  simpa using hs.1

theorem mk_toList (l : List Char) : (String.mk l).toList = l := rfl

/-- The swap on a well-formed lower-case-host connection URL replaces
exactly the host. -/
theorem swap_forward {s h p pa q fr : List Char} (h2 : List Char)
    (hs : SchemeOK s) (hh : HostOK h) (hp : PortOK p)
    (hpa : PathOK pa) (hq : QueryOK q) (hf : FragOK fr)
    (hocc : hasSubstr h p = false) (hh2 : h2 ≠ []) :
    swap_xapi_host (String.mk (renderUrl s (h ++ p) pa q fr)) (String.mk h2)
      = some (String.mk (renderUrl s (h2 ++ p) pa q fr)) := by
  obtain ⟨⟨hhne, hhc⟩, hhlow⟩ := hh
  have hnl : ∀ c ∈ h ++ p, netlocStop c = false := by
    intro c hc
    rcases List.mem_append.mp hc with hc | hc
    · exact netlocStop_of_plain (hhc c hc)
    · exact (port_chars hp c hc).2.2.1
  have hparse := urlparse_render hs hnl hpa hq hf
  have hhost : hostnameOpt (h ++ p) = some h := by
    rw [hostnameOpt_render hhne hhc hp, map_toLower_self hhlow]
  have hrepl : replaceAll h h2 (h ++ p) = h2 ++ p := by
    cases h with
    | nil => exact absurd rfl hhne
    | cons h0 hs' => exact replaceAll_head h2 hocc
  rw [swap_xapi_host, mk_toList, hparse]
  simp only [mk_toList, hhost, hrepl]
  rw [urlunparse_render (scheme_ne_nil hs) (by simp [hh2]) hpa.1 hq hf]

/-! ### Claim theorems for the Host-Swapper (C6, C10) -/

/-- C6 (counterexample): on the valid connection URL `http://ABC:80`
(host spelled upper-case), `swap_xapi_host` does not replace the host at
all — the claim "for every valid connection URL ... the host segment is
H2" is false. -/
theorem c6_counterexample :
    swap_xapi_host "http://ABC:80" "master" = some "http://ABC:80" ∧
      some ("http://ABC:80" : String) ≠ some ("http://master:80" : String) :=
  ⟨rfl, by decide⟩

/-- C6 (amended): for every connection URL
`scheme://host[:port][path][?query][#fragment]` without userinfo, with a
well-formed lower-case scheme, a nonempty lower-case bracket-free host, a
numeric port, and a host that does not also occur inside the port digits
(and likewise for the replacement host), `swap_xapi_host` yields the same
URL with exactly the host segment replaced, and swapping the result back
with the original host returns the original URL byte-for-byte. -/
theorem c6_swap_replaces_host_and_roundtrips {s h p pa q fr h2 : List Char}
    (hs : SchemeOK s) (hh : HostOK h) (hp : PortOK p)
    (hpa : PathOK pa) (hq : QueryOK q) (hf : FragOK fr)
    (hh2 : HostOK h2)
    (hocc : hasSubstr h p = false) (hocc2 : hasSubstr h2 p = false) :
    swap_xapi_host (String.mk (renderUrl s (h ++ p) pa q fr)) (String.mk h2)
        = some (String.mk (renderUrl s (h2 ++ p) pa q fr)) ∧
      swap_xapi_host (String.mk (renderUrl s (h2 ++ p) pa q fr)) (String.mk h)
        = some (String.mk (renderUrl s (h ++ p) pa q fr)) :=
  ⟨swap_forward h2 hs hh hp hpa hq hf hocc hh2.1.1,
   swap_forward h hs hh2 hp hpa hq hf hocc2 hh.1.1⟩

/-- C6 (witness): the amended statement at
`http://h1:80`, replacement host `m2`. -/
theorem c6_witness :
    swap_xapi_host "http://h1:80" "m2" = some "http://m2:80" ∧
      swap_xapi_host "http://m2:80" "h1" = some "http://h1:80" := by
  have h := @c6_swap_replaces_host_and_roundtrips
    "http".toList "h1".toList ":80".toList [] [] [] "m2".toList
    (by decide) (by decide) (by decide) (by decide) (by decide) (by decide)
    (by decide) (by decide) (by decide)
  exact h

/-- C10 (confirmed): for a connection URL whose host contains any
character changed by lower-casing (an upper-case letter), the swap is a
complete no-op: the lower-cased parsed hostname does not occur in the
original-case netloc, so the replacement finds nothing. -/
theorem c10_swap_uppercase_host_noop {s h p pa q fr : List Char} (h2 : String)
    (hs : SchemeOK s) (hh : HostShape h) (hup : ∃ c ∈ h, Char.toLower c ≠ c)
    (hp : PortOK p) (hpa : PathOK pa) (hq : QueryOK q) (hf : FragOK fr) :
    swap_xapi_host (String.mk (renderUrl s (h ++ p) pa q fr)) h2
      = some (String.mk (renderUrl s (h ++ p) pa q fr)) := by
  obtain ⟨hhne, hhc⟩ := hh
  have hnl : ∀ c ∈ h ++ p, netlocStop c = false := by
    intro c hc
    rcases List.mem_append.mp hc with hc | hc
    · exact netlocStop_of_plain (hhc c hc)
    · exact (port_chars hp c hc).2.2.1
  have hparse := urlparse_render hs hnl hpa hq hf
  have hhost := hostnameOpt_render hhne hhc hp
  have hrepl : replaceAll (h.map Char.toLower) h2.toList (h ++ p) = h ++ p :=
    replaceAll_no_occ _ (lower_not_substr hhc hp hup)
  rw [swap_xapi_host, mk_toList, hparse]
  simp only [hhost, hrepl]
  rw [urlunparse_render (scheme_ne_nil hs) (by simp [hhne]) hpa.1 hq hf]

/-- C10 (witness): `http://XenHost1:443` with replacement `10.0.0.9` is
returned unchanged. -/
theorem c10_witness :
    swap_xapi_host "https://XenHost1:443" "10.0.0.9" = some "https://XenHost1:443" := by
  have h := @c10_swap_uppercase_host_noop
    "https".toList "XenHost1".toList ":443".toList [] [] [] "10.0.0.9"
    (by decide) (by decide) (by decide) (by decide) (by decide) (by decide) (by decide)
  exact h

/-! ### Claim theorems for session establishment (C1, C2) -/

/-- C1 (counterexample): an empty-string password is not rejected — with
`connection_url = "http://a"` and `connection_password = ""`, the session
is established and one login is attempted, where the claim demands a
ConfigurationError with no login attempt. -/
theorem c1_counterexample :
    get_api_session ⟨fun _ => .ok ()⟩ ⟨some "http://a", "root", some ""⟩
      = (.ok "http://a", ["http://a"]) := rfl

/-- C1 (amended): `get_api_session` fails with the configuration
`XenapiException`, attempting no login, exactly when the url is unset or
the empty string or the password is unset (`None`); with a nonempty url
and any *set* password — the empty string included — the check passes and
login is attempted against the configured url. -/
theorem c1_config_check (env : XenEnv) (conf : Conf) :
    (((conf.connection_url = none ∨ conf.connection_url = some "") ∨
        conf.connection_password = none) →
      get_api_session env conf =
        (.error (.xenapiException
          "Must specify connection_url, and connection_password to use"), [])) ∧
    (∀ url pw, conf.connection_url = some url → url ≠ "" →
      conf.connection_password = some pw →
      (get_api_session env conf).2.head? = some url) := by
  constructor
  · intro hcond
    rw [get_api_session, if_pos hcond]
  · intro url pw hu hne hpw
    obtain ⟨cu, un, cp⟩ := conf
    simp only at hu hpw
    subst hu hpw
    have hcond : ¬(((some url = (none : Option String) ∨ some url = some "") ∨
        some pw = (none : Option String))) := by
      intro hcond
      rcases hcond with (hcond | hcond) | hcond
      · exact Option.noConfusion hcond
      · exact hne (Option.some.inj hcond)
      · exact Option.noConfusion hcond
    rw [get_api_session, if_neg hcond]
    simp only [Option.getD_some]
    (repeat' split) <;> rfl

/-- C1 (witness): the amended statement at a concrete unset-url
configuration and at a concrete empty-string-password configuration. -/
theorem c1_witness :
    get_api_session ⟨fun _ => .ok ()⟩ ⟨none, "root", some "pw"⟩
      = (.error (.xenapiException
          "Must specify connection_url, and connection_password to use"), []) ∧
    (get_api_session ⟨fun _ => .ok ()⟩ ⟨some "http://a", "root", some ""⟩).2.head?
      = some "http://a" :=
  ⟨(c1_config_check ⟨fun _ => .ok ()⟩ ⟨none, "root", some "pw"⟩).1 (by simp),
   (c1_config_check ⟨fun _ => .ok ()⟩ ⟨some "http://a", "root", some ""⟩).2
     "http://a" "" rfl (by decide) rfl⟩

theorem renderUrl_mk_ne_empty (s nl pa q fr : List Char) :
    String.mk (renderUrl s nl pa q fr) ≠ "" := by
  intro he
  have h2 : renderUrl s nl pa q fr = "".toList := by
    rw [← mk_toList (renderUrl s nl pa q fr), he]
  simp [renderUrl] at h2

/-- C2 (confirmed): on a well-formed connection URL, a first login failing
with `HOST_IS_SLAVE` and a master address leads to exactly one further
login, against the URL with its host replaced by the master address; that
retried login's success is returned, and its failure is terminal with the
connection `XenapiException` carrying the remote failure detail — the
attempt trace is exactly the two urls, so no further swap or retry
happens. -/
theorem c2_host_is_slave_single_retry
    (env : XenEnv) (uname pw : String)
    {s h p pa q fr : List Char} (master : String) (rest : List String)
    (hs : SchemeOK s) (hh : HostOK h) (hp : PortOK p) (hpa : PathOK pa)
    (hq : QueryOK q) (hf : FragOK fr)
    (hm : HostOK master.toList) (hocc : hasSubstr h p = false)
    (hfail : env.login (String.mk (renderUrl s (h ++ p) pa q fr)) =
      .error ⟨"HOST_IS_SLAVE" :: master :: rest⟩) :
    (get_api_session env
        ⟨some (String.mk (renderUrl s (h ++ p) pa q fr)), uname, some pw⟩).2
      = [String.mk (renderUrl s (h ++ p) pa q fr),
         String.mk (renderUrl s (master.toList ++ p) pa q fr)] ∧
    (∀ r, env.login (String.mk (renderUrl s (master.toList ++ p) pa q fr)) = .ok r →
      get_api_session env
          ⟨some (String.mk (renderUrl s (h ++ p) pa q fr)), uname, some pw⟩
        = (.ok (String.mk (renderUrl s (master.toList ++ p) pa q fr)),
           [String.mk (renderUrl s (h ++ p) pa q fr),
            String.mk (renderUrl s (master.toList ++ p) pa q fr)])) ∧
    (∀ es d0 ds, env.login (String.mk (renderUrl s (master.toList ++ p) pa q fr)) =
        .error es → es.details = d0 :: ds →
      get_api_session env
          ⟨some (String.mk (renderUrl s (h ++ p) pa q fr)), uname, some pw⟩
        = (.error (.xenapiException ("Could not connect slave host: " ++ d0)),
           [String.mk (renderUrl s (h ++ p) pa q fr),
            String.mk (renderUrl s (master.toList ++ p) pa q fr)])) := by
  have hurl1 : String.mk (renderUrl s (h ++ p) pa q fr) ≠ "" :=
    renderUrl_mk_ne_empty _ _ _ _ _
  have hcond : ¬(((some (String.mk (renderUrl s (h ++ p) pa q fr))
        = (none : Option String) ∨
      some (String.mk (renderUrl s (h ++ p) pa q fr)) = some "") ∨
      some pw = (none : Option String))) := by
    intro hcond
    rcases hcond with (hcond | hcond) | hcond
    · exact Option.noConfusion hcond
    · exact hurl1 (Option.some.inj hcond)
    · exact Option.noConfusion hcond
  have hswap := swap_forward master.toList hs hh hp hpa hq hf hocc hm.1.1
  have hmaster_mk : String.mk master.toList = master := rfl
  rw [hmaster_mk] at hswap
  refine ⟨?_, ?_, ?_⟩
  · rw [get_api_session, if_neg hcond]
    simp only [Option.getD_some, hfail, eq_self_iff_true, if_true, hswap]
    cases env.login (String.mk (renderUrl s (master.toList ++ p) pa q fr)) with
    | ok _ => rfl
    | error es =>
      obtain ⟨dets2⟩ := es
      cases dets2 with
      | nil => rfl
      | cons d0 ds => rfl
  · intro r hok
    rw [get_api_session, if_neg hcond]
    simp only [Option.getD_some, hfail, eq_self_iff_true, if_true, hswap, hok]
  · intro es d0 ds herr hdet
    rw [get_api_session, if_neg hcond]
    simp only [Option.getD_some, hfail, eq_self_iff_true, if_true, hswap, herr, hdet]

/-- C2 (witness): first login on `http://h1:80` fails with
`HOST_IS_SLAVE, m2`; the single retry happens on `http://m2:80` and its
failure detail `SESSION_AUTHENTICATION_FAILED` is wrapped in the terminal
connection error. -/
theorem c2_witness :
    (get_api_session
        ⟨fun u => if u = "http://h1:80"
            then .error ⟨["HOST_IS_SLAVE", "m2"]⟩
            else .error ⟨["SESSION_AUTHENTICATION_FAILED"]⟩⟩
        ⟨some "http://h1:80", "root", some "pw"⟩).2
      = ["http://h1:80", "http://m2:80"] ∧
    get_api_session
        ⟨fun u => if u = "http://h1:80"
            then .error ⟨["HOST_IS_SLAVE", "m2"]⟩
            else .error ⟨["SESSION_AUTHENTICATION_FAILED"]⟩⟩
        ⟨some "http://h1:80", "root", some "pw"⟩
      = (.error (.xenapiException
          "Could not connect slave host: SESSION_AUTHENTICATION_FAILED"),
         ["http://h1:80", "http://m2:80"]) := by
  have h := @c2_host_is_slave_single_retry
    ⟨fun u => if u = "http://h1:80"
        then .error ⟨["HOST_IS_SLAVE", "m2"]⟩
        else .error ⟨["SESSION_AUTHENTICATION_FAILED"]⟩⟩
    "root" "pw" "http".toList "h1".toList ":80".toList [] [] [] "m2" []
    (by decide) (by decide) (by decide) (by decide) (by decide) (by decide)
    (by decide) (by decide) rfl
  exact ⟨h.1, h.2.2 ⟨["SESSION_AUTHENTICATION_FAILED"]⟩
    "SESSION_AUTHENTICATION_FAILED" [] rfl rfl⟩

/-! ### Claim theorems for the metric collectors (C3, C4, C5) -/

theorem sumCpu_ok (env : CpuEnv) (v : Nat → ℚ) :
    ∀ n, (∀ i < n, env.query_data_source ("cpu" ++ toString i) = .ok (v i)) →
      sumCpu env n = .ok (((List.range n).map v).sum) := by
  intro n
  induction n with
  | zero => intro _; simp [sumCpu]
  | succ n ih =>
    intro hq
    rw [sumCpu, ih (fun i hi => hq i (by omega)), hq n (by omega)]
    simp [List.range_succ]

/-- C3 (confirmed): a VCPU count ≤ 0 makes CPU collection fail with the
metric `XenapiException`; with count n > 0 and per-core sources
`cpu0 .. cpu(n-1)` returning `v 0 .. v (n-1)`, the result is exactly
`(v 0 + ... + v (n-1)) / n * 100`, with no clamping. -/
theorem c3_cpu_usage (env : CpuEnv) (name : String) (v : Nat → ℚ) :
    (env.vcpus_max ≤ 0 →
      get_cpu_usage env name =
        .error (.xenapiException ("Could not get VM " ++ name ++ " CPU number"))) ∧
    (0 < env.vcpus_max →
      (∀ i < env.vcpus_max.toNat, env.query_data_source ("cpu" ++ toString i) = .ok (v i)) →
      get_cpu_usage env name =
        .ok ((((List.range env.vcpus_max.toNat).map v).sum / (env.vcpus_max : ℚ)) * 100)) := by
  constructor
  · intro hle
    rw [get_cpu_usage, if_pos hle]
  · intro hpos hq
    rw [get_cpu_usage, if_neg (not_le.mpr hpos), sumCpu_ok env v _ hq]

/-- C3 (witness): VCPU count 2 with per-core sources `[0.5, 0.7]` yields
exactly `60`, and VCPU count 0 yields the metric error. -/
theorem c3_witness :
    get_cpu_usage
        ⟨2, fun s => if s = "cpu0" then .ok (1/2)
            else if s = "cpu1" then .ok (7/10) else .error ⟨[]⟩⟩ "vm"
      = .ok 60 ∧
    get_cpu_usage ⟨0, fun _ => .ok 0⟩ "vm"
      = .error (.xenapiException "Could not get VM vm CPU number") := by
  constructor
  · have h := (c3_cpu_usage
      ⟨2, fun s => if s = "cpu0" then .ok (1/2)
          else if s = "cpu1" then .ok (7/10) else .error ⟨[]⟩⟩ "vm"
      (fun i => if i = 0 then 1/2 else 7/10)).2 (by decide)
      (by
        intro i hi
        have hi2 : i < 2 := hi
        interval_cases i <;> rfl)
    rw [h]
    congr 1
    rw [show ((2 : Int)).toNat = 2 from rfl]
    norm_num [List.range_succ]
  · exact (c3_cpu_usage ⟨0, fun _ => .ok 0⟩ "vm" (fun _ => 0)).1 (by decide)

/-- C4 (confirmed): memory usage is
`(total_bytes − free_KB * 1024) / (1024 * 1024)`; exactly a failure of the
`memory_internal_free` query substitutes `free_KB = 0` while a failure of
the `memory` query propagates as the `XenAPI.Failure`. -/
theorem c4_memory_usage (env : MemEnv) :
    (∀ total free, env.query_data_source "memory" = .ok total →
      env.query_data_source "memory_internal_free" = .ok free →
      get_memory_usage env = .ok ((total - free * 1024) / (1024 * 1024))) ∧
    (∀ total e, env.query_data_source "memory" = .ok total →
      env.query_data_source "memory_internal_free" = .error e →
      get_memory_usage env = .ok ((total - 0 * 1024) / (1024 * 1024))) ∧
    (∀ e, env.query_data_source "memory" = .error e →
      get_memory_usage env = .error (.apiFailure e)) := by
  refine ⟨?_, ?_, ?_⟩
  · intro total free h1 h2
    simp only [get_memory_usage, h1, h2]
  · intro total e h1 h2
    simp only [get_memory_usage, h1, h2]
  · intro e h1
    simp only [get_memory_usage, h1]

/-- C4 (witness): the spec's example — total 2147483648 bytes, free
1048576 KB gives 1024 MB; with the free query failing (no in-guest agent),
free is taken as 0 giving 2048 MB; a failing total query propagates. -/
theorem c4_witness :
    get_memory_usage
        ⟨fun s => if s = "memory" then .ok 2147483648 else .ok 1048576⟩ = .ok 1024 ∧
    get_memory_usage
        ⟨fun s => if s = "memory" then .ok 2147483648 else .error ⟨["NO_AGENT"]⟩⟩
      = .ok 2048 ∧
    get_memory_usage ⟨fun _ => .error ⟨["XENAPI_DOWN"]⟩⟩
      = .error (.apiFailure ⟨["XENAPI_DOWN"]⟩) := by
  refine ⟨?_, ?_, ?_⟩
  · have h := (c4_memory_usage
      ⟨fun s => if s = "memory" then .ok 2147483648 else .ok 1048576⟩).1
      2147483648 1048576 rfl rfl
    rw [h]; norm_num
  · have h := (c4_memory_usage
      ⟨fun s => if s = "memory" then .ok 2147483648 else .error ⟨["NO_AGENT"]⟩⟩).2.1
      2147483648 ⟨["NO_AGENT"]⟩ rfl rfl
    rw [h]; norm_num
  · exact (c4_memory_usage ⟨fun _ => .error ⟨["XENAPI_DOWN"]⟩⟩).2.2
      ⟨["XENAPI_DOWN"]⟩ rfl

/-- C5 (confirmed): name resolution returns the single reference on
exactly one match, fails with the `InstanceNotFoundException` kind on zero
matches, and with the distinct `XenapiException` kind on two or more
matches. -/
theorem c5_lookup_by_name (refs : List String) (name : String) :
    (refs = [] → lookup_by_name refs name =
      .error (.instanceNotFound ("VM " ++ name ++ " not found in XenServer"))) ∧
    (∀ r, refs = [r] → lookup_by_name refs name = .ok r) ∧
    (2 ≤ refs.length → lookup_by_name refs name =
      .error (.xenapiException ("Multiple VM " ++ name ++ " found in XenServer"))) ∧
    (∀ m m', Err.xenapiException m ≠ Err.instanceNotFound m') := by
  refine ⟨?_, ?_, ?_, ?_⟩
  · rintro rfl; rfl
  · rintro r rfl; rfl
  · intro hlen
    match refs, hlen with
    | a :: b :: t, _ => rfl
  · intro m m' h
    exact Err.noConfusion h

/-- C5 (witness): zero, one and two matches at concrete reference
lists. -/
theorem c5_witness :
    lookup_by_name [] "vm"
      = .error (.instanceNotFound "VM vm not found in XenServer") ∧
    lookup_by_name ["OpaqueRef:1"] "vm" = .ok "OpaqueRef:1" ∧
    lookup_by_name ["OpaqueRef:1", "OpaqueRef:2"] "vm"
      = .error (.xenapiException "Multiple VM vm found in XenServer") :=
  ⟨(c5_lookup_by_name [] "vm").1 rfl,
   (c5_lookup_by_name ["OpaqueRef:1"] "vm").2.1 "OpaqueRef:1" rfl,
   (c5_lookup_by_name ["OpaqueRef:1", "OpaqueRef:2"] "vm").2.2.1 (by decide)⟩

/-! ### Claim theorems for the vNIC and disk collectors (C7, C8) -/

theorem vnicLoop_map (env : VnicEnv) (dom_id : String) (bwf : String → Bw) :
    ∀ refs, (∀ ref ∈ refs,
        (List.lookup dom_id env.bw_all).bind
          (fun m => List.lookup (env.vif_record ref).device m) = some (bwf ref)) →
      (vnicLoop env dom_id refs).1 =
        .ok (refs.map (fun ref =>
          (⟨(env.vif_record ref).uuid, (env.vif_record ref).MAC, none, none⟩,
           ⟨(bwf ref).bw_in, -1, -1, -1, (bwf ref).bw_out, -1, -1, -1⟩))) := by
  intro refs
  induction refs with
  | nil => intro _; rfl
  | cons ref rest ih =>
    intro h
    have h1 := h ref (by simp)
    cases hdom : List.lookup dom_id env.bw_all with
    | none => rw [hdom] at h1; simp at h1
    | some m =>
      rw [hdom] at h1
      simp only [Option.some_bind] at h1
      cases hrec : vnicLoop env dom_id rest with
      | mk res tr =>
        have hres2 : res = .ok (rest.map (fun r =>
            (⟨(env.vif_record r).uuid, (env.vif_record r).MAC, none, none⟩,
             ⟨(bwf r).bw_in, -1, -1, -1, (bwf r).bw_out, -1, -1, -1⟩))) := by
          have h2 := ih (fun r hr => h r (by simp [hr]))
          rw [hrec] at h2
          exact h2
        rw [vnicLoop]
        simp only [hdom, h1, hrec, hres2, List.map_cons]

theorem vnicLoop_trace (env : VnicEnv) (dom_id : String) :
    ∀ refs, ∀ x ∈ (vnicLoop env dom_id refs).2, x = "VIF.get_record" := by
  intro refs
  induction refs with
  | nil => intro x hx; simp [vnicLoop] at hx
  | cons ref rest ih =>
    intro x hx
    rw [vnicLoop] at hx
    cases hdom : List.lookup dom_id env.bw_all with
    | none => simp only [hdom] at hx; simpa using hx
    | some m =>
      simp only [hdom] at hx
      cases hdev : List.lookup (env.vif_record ref).device m with
      | none => simp only [hdev] at hx; simpa using hx
      | some bw =>
        simp only [hdev] at hx
        cases hrec : vnicLoop env dom_id rest with
        | mk res tr =>
          simp only [hrec] at hx
          have htr : x ∈ ("VIF.get_record" :: tr) → x = "VIF.get_record" := by
            intro hxx
            rcases List.mem_cons.mp hxx with rfl | hxx
            · rfl
            · exact ih x (by rw [hrec]; exact hxx)
          cases res with
          | ok l => exact htr (by simpa using hx)
          | error e => exact htr (by simpa using hx)

/-- C7 (confirmed): with a unique instance match, `inspect_vnics` yields
exactly one `(Interface, InterfaceStats)` pair per VIF in the remote
listing order, with `rx_bytes`/`tx_bytes` taken as `bw_in`/`bw_out` from
the single bandwidth snapshot keyed by domain id then device id; a
snapshot missing the domain or device key gives a `KeyError`; no VIFs
gives the empty sequence; and the snapshot plugin call occurs exactly
once. -/
theorem c7_inspect_vnics (env : VnicEnv) (name : String) (vm : String)
    (bwf : String → Bw) (hres : env.vm_refs = [vm]) :
    ((∀ ref ∈ env.get_VIFs vm,
        (List.lookup (env.get_domid vm) env.bw_all).bind
          (fun m => List.lookup (env.vif_record ref).device m) = some (bwf ref)) →
      (inspect_vnics env name).1 =
        .ok ((env.get_VIFs vm).map (fun ref =>
          (⟨(env.vif_record ref).uuid, (env.vif_record ref).MAC, none, none⟩,
           ⟨(bwf ref).bw_in, -1, -1, -1, (bwf ref).bw_out, -1, -1, -1⟩)))) ∧
    (env.get_VIFs vm = [] → (inspect_vnics env name).1 = .ok []) ∧
    (∀ ref rest, env.get_VIFs vm = ref :: rest →
      List.lookup (env.get_domid vm) env.bw_all = none →
      (inspect_vnics env name).1 = .error (.keyError (env.get_domid vm))) ∧
    (∀ ref rest m, env.get_VIFs vm = ref :: rest →
      List.lookup (env.get_domid vm) env.bw_all = some m →
      List.lookup (env.vif_record ref).device m = none →
      (inspect_vnics env name).1 = .error (.keyError (env.vif_record ref).device)) ∧
    ((inspect_vnics env name).2.count "bandwidth.fetch_all_bandwidth" = 1) := by
  have hlk : lookup_by_name env.vm_refs name = .ok vm := by
    rw [hres]; rfl
  refine ⟨?_, ?_, ?_, ?_, ?_⟩
  · intro h
    rw [inspect_vnics, hlk]
    exact vnicLoop_map env (env.get_domid vm) bwf (env.get_VIFs vm) h
  · intro hvifs
    rw [inspect_vnics]
    simp only [hlk, hvifs, vnicLoop]
  · intro ref rest hvifs hdom
    rw [inspect_vnics]
    simp only [hlk, hvifs, vnicLoop, hdom]
  · intro ref rest m hvifs hdom hdev
    rw [inspect_vnics]
    simp only [hlk, hvifs, vnicLoop, hdom, hdev]
  · rw [inspect_vnics, hlk]
    simp only [List.count_append]
    have h0 : ((vnicLoop env (env.get_domid vm) (env.get_VIFs vm)).2).count
        "bandwidth.fetch_all_bandwidth" = 0 := by
      apply List.count_eq_zero.mpr
      intro hmem
      have := vnicLoop_trace env (env.get_domid vm) (env.get_VIFs vm) _ hmem
      simp at this
    rw [h0]
    rfl

/-- A concrete vNIC environment: one VM, one VIF on device `0`, a snapshot
with `bw_in = 10`, `bw_out = 20` for domain `1` device `0`. -/
def vnicEnvEx : VnicEnv :=
  ⟨["OpaqueRef:vm1"], fun _ => "1", fun _ => ["OpaqueRef:vif1"],
   fun _ => ⟨"uuid-1", "aa:bb:cc:dd:ee:ff", "0"⟩,
   [("1", [("0", ⟨10, 20⟩)])]⟩

/-- C7 (witness): on `vnicEnvEx` the collector yields exactly the one
expected pair and calls the bandwidth plugin once. -/
theorem c7_witness :
    (inspect_vnics vnicEnvEx "inst").1 =
      .ok [(⟨"uuid-1", "aa:bb:cc:dd:ee:ff", none, none⟩,
            ⟨10, -1, -1, -1, 20, -1, -1, -1⟩)] ∧
    (inspect_vnics vnicEnvEx "inst").2.count "bandwidth.fetch_all_bandwidth" = 1 := by
  have h := c7_inspect_vnics vnicEnvEx "inst" "OpaqueRef:vm1" (fun _ => ⟨10, 20⟩) rfl
  exact ⟨h.1 (by decide), h.2.2.2.2⟩

theorem vnicLoop_sentinel (env : VnicEnv) (dom_id : String) :
    ∀ refs l, (vnicLoop env dom_id refs).1 = .ok l →
      ∀ pr ∈ l, pr.2.rx_packets = -1 ∧ pr.2.rx_drop = -1 ∧ pr.2.rx_errors = -1 ∧
        pr.2.tx_packets = -1 ∧ pr.2.tx_drop = -1 ∧ pr.2.tx_errors = -1 := by
  intro refs
  induction refs with
  | nil =>
    intro l hl pr hpr
    rw [vnicLoop] at hl
    have : l = [] := by simpa using hl.symm
    subst this
    simp at hpr
  | cons ref rest ih =>
    intro l hl pr hpr
    rw [vnicLoop] at hl
    cases hdom : List.lookup dom_id env.bw_all with
    | none => simp only [hdom] at hl; simp at hl
    | some m =>
      simp only [hdom] at hl
      cases hdev : List.lookup (env.vif_record ref).device m with
      | none => simp only [hdev] at hl; simp at hl
      | some bw =>
        simp only [hdev] at hl
        cases hrec : vnicLoop env dom_id rest with
        | mk res tr =>
          simp only [hrec] at hl
          cases res with
          | error e => simp at hl
          | ok l' =>
            simp only [Except.ok.injEq] at hl
            subst hl
            rcases List.mem_cons.mp hpr with rfl | hpr
            · exact ⟨rfl, rfl, rfl, rfl, rfl, rfl⟩
            · exact ih l' (by rw [hrec]) pr hpr

theorem diskLoop_sentinel (env : DiskEnv) :
    ∀ refs l, diskLoop env refs = .ok l →
      ∀ pr ∈ l, pr.2.read_requests_rate = 0 ∧ pr.2.write_requests_rate = 0 := by
  intro refs
  induction refs with
  | nil =>
    intro l hl pr hpr
    rw [diskLoop] at hl
    have : l = [] := by simpa using hl.symm
    subst this
    simp at hpr
  | cons ref rest ih =>
    intro l hl pr hpr
    rw [diskLoop] at hl
    cases hr : env.query_data_source ("vbd_" ++ (env.vbd_record ref).device ++ "_read") with
    | error e => simp only [hr] at hl; simp at hl
    | ok r =>
      simp only [hr] at hl
      cases hw : env.query_data_source ("vbd_" ++ (env.vbd_record ref).device ++ "_write") with
      | error e => simp only [hw] at hl; simp at hl
      | ok w =>
        simp only [hw] at hl
        cases hrec : diskLoop env rest with
        | error e => simp only [hrec] at hl; simp at hl
        | ok l' =>
          simp only [hrec] at hl
          simp only [Except.ok.injEq] at hl
          subst hl
          rcases List.mem_cons.mp hpr with rfl | hpr
          · exact ⟨rfl, rfl⟩
          · exact ih l' hrec pr hpr

/-- C8 (confirmed): whatever the remote inputs, every `InterfaceStats`
record produced by `inspect_vnics` carries the sentinel `-1` in all six
unsupported counter fields, and every `DiskRateStats` record produced by
`inspect_disk_rates` carries `0` in both request-rate fields; the fields
are always present. -/
theorem c8_sentinels (envV : VnicEnv) (envD : DiskEnv) (nameV nameD : String) :
    (∀ l, (inspect_vnics envV nameV).1 = .ok l →
      ∀ pr ∈ l, pr.2.rx_packets = -1 ∧ pr.2.rx_drop = -1 ∧ pr.2.rx_errors = -1 ∧
        pr.2.tx_packets = -1 ∧ pr.2.tx_drop = -1 ∧ pr.2.tx_errors = -1) ∧
    (∀ l, inspect_disk_rates envD nameD = .ok l →
      ∀ pr ∈ l, pr.2.read_requests_rate = 0 ∧ pr.2.write_requests_rate = 0) := by
  constructor
  · intro l hl
    rw [inspect_vnics] at hl
    cases hlk : lookup_by_name envV.vm_refs nameV with
    | error e => rw [hlk] at hl; simp at hl
    | ok vm =>
      rw [hlk] at hl
      exact vnicLoop_sentinel envV (envV.get_domid vm) (envV.get_VIFs vm) l hl
  · intro l hl
    rw [inspect_disk_rates] at hl
    cases hlk : lookup_by_name envD.vm_refs nameD with
    | error e => rw [hlk] at hl; simp at hl
    | ok vm =>
      rw [hlk] at hl
      exact diskLoop_sentinel envD (envD.get_VBDs vm) l hl

/-- A concrete disk environment: one VM, one VBD on device `xvda`, read
rate 256, write rate 512. -/
def diskEnvEx : DiskEnv :=
  ⟨["OpaqueRef:vm1"], fun _ => ["OpaqueRef:vbd1"], fun _ => ⟨"xvda"⟩,
   fun s => if s = "vbd_xvda_read" then .ok 256 else .ok 512⟩

/-- C8 (witness): the sentinel equalities on the concrete records the two
collectors produce for `vnicEnvEx` and `diskEnvEx`. -/
theorem c8_witness :
    (((⟨"uuid-1", "aa:bb:cc:dd:ee:ff", none, none⟩ : Interface),
      (⟨10, -1, -1, -1, 20, -1, -1, -1⟩ : InterfaceStats)).2.rx_packets = -1 ∧
     ((⟨"uuid-1", "aa:bb:cc:dd:ee:ff", none, none⟩ : Interface),
      (⟨10, -1, -1, -1, 20, -1, -1, -1⟩ : InterfaceStats)).2.rx_drop = -1 ∧
     ((⟨"uuid-1", "aa:bb:cc:dd:ee:ff", none, none⟩ : Interface),
      (⟨10, -1, -1, -1, 20, -1, -1, -1⟩ : InterfaceStats)).2.rx_errors = -1 ∧
     ((⟨"uuid-1", "aa:bb:cc:dd:ee:ff", none, none⟩ : Interface),
      (⟨10, -1, -1, -1, 20, -1, -1, -1⟩ : InterfaceStats)).2.tx_packets = -1 ∧
     ((⟨"uuid-1", "aa:bb:cc:dd:ee:ff", none, none⟩ : Interface),
      (⟨10, -1, -1, -1, 20, -1, -1, -1⟩ : InterfaceStats)).2.tx_drop = -1 ∧
     ((⟨"uuid-1", "aa:bb:cc:dd:ee:ff", none, none⟩ : Interface),
      (⟨10, -1, -1, -1, 20, -1, -1, -1⟩ : InterfaceStats)).2.tx_errors = -1) ∧
    (((⟨"xvda"⟩ : Disk), (⟨256, 0, 512, 0⟩ : DiskRateStats)).2.read_requests_rate = 0 ∧
     ((⟨"xvda"⟩ : Disk), (⟨256, 0, 512, 0⟩ : DiskRateStats)).2.write_requests_rate = 0) := by
  have h := c8_sentinels vnicEnvEx diskEnvEx "inst" "inst"
  exact ⟨h.1 [(⟨"uuid-1", "aa:bb:cc:dd:ee:ff", none, none⟩,
          ⟨10, -1, -1, -1, 20, -1, -1, -1⟩)] rfl _ (by simp),
        h.2 [(⟨"xvda"⟩, ⟨256, 0, 512, 0⟩)] rfl _ (by simp)⟩

end XenInspect
